import Mathlib

/-!
# Verification of the CSV cleaning pipeline

A shallow embedding of the core logic of the `proyecto_limpieza_csv`
repository and proofs of its specified properties.

* `clean_dataframe` models `FileProcessor.clean_dataframe`
  (`pages/limpieza_csv.py`): `df.dropna(how='all').dropna(axis=1,
  how='all').drop_duplicates().reset_index(drop=True)` together with the
  before/after statistics record.
* `process_large_file` models `FileProcessor.process_large_file`: chunked
  ingestion into the `raw_data` table, `replace` for the first chunk and
  `append` afterwards, stopping at the first failed write.
* `mainBatch` models the multi-file loop of `main` that tallies
  successfully ingested files.
* `get_engine` models the retry loop of `utils/db.py`, and
  `get_engine_cached` its `st.cache_resource` memoization.
* `guess_delimiter`/`sniff`/`detect_delimiter` model
  `FileProcessor.detect_delimiter`, including the relevant path of the
  standard library `csv.Sniffer` it calls.
-/

set_option maxHeartbeats 1000000

namespace LimpiezaCsv

/-- A cell of a tabular dataset: a value, or null (pandas `NaN`).
`drop_duplicates` treats nulls as equal, so plain `Option` equality is the
right notion of cell equality. -/
abbrev Cell := Option String

/-- A row of a tabular dataset: its cells in column order. -/
abbrev Row := List Cell

/-- A tabular dataset: a column count together with its rows.  The data
model's invariant (`DataFrame.rect`) is that every row has `ncols` cells. -/
structure DataFrame where
  ncols : Nat
  rows : List Row
deriving DecidableEq

/-- The Tabular Dataset invariant: the frame is rectangular. -/
def DataFrame.rect (df : DataFrame) : Bool :=
  df.rows.all (fun r => r.length == df.ncols)

/-- `true` iff every cell of the row is null (a pandas all-`NaN` row). -/
def isNullRow (r : Row) : Bool := r.all Option.isNone

/-- The cell of row `r` in column `j` (null when out of range). -/
def cellAt (r : Row) (j : Nat) : Cell := r.getD j none

/-- `df.dropna(how='all')`: keep the rows having at least one non-null cell. -/
def dropNullRows (rows : List Row) : List Row := rows.filter (fun r => !isNullRow r)

/-- Column `j` holds at least one non-null cell somewhere in `rows`. -/
def colHasValue (rows : List Row) (j : Nat) : Bool :=
  rows.any (fun r => (cellAt r j).isSome)

/-- The column-keep mask of `df.dropna(axis=1, how='all')`: entry `j` is
`true` iff column `j` survives. -/
def keepMask (rows : List Row) (ncols : Nat) : List Bool :=
  (List.range ncols).map (fun j => colHasValue rows j)

/-- Restrict a row to the columns marked `true` in the mask. -/
def applyMask : List Bool → Row → Row
  | b :: bs, c :: cs => if b then c :: applyMask bs cs else applyMask bs cs
  | _, _ => []

/-- Helper of `dedupKeepFirst`: drop the rows already in `seen`, keeping
the first occurrence of every remaining row value. -/
def dedupAux (seen : List Row) : List Row → List Row
  | [] => []
  | r :: rs => if r ∈ seen then dedupAux seen rs else r :: dedupAux (r :: seen) rs

/-- `df.drop_duplicates()`: keep the first occurrence of every row value,
comparing all column values (pandas treats `NaN` cells as equal here). -/
def dedupKeepFirst (rows : List Row) : List Row := dedupAux [] rows

/-- The cleaning-report record produced by `clean_dataframe`
(field names as in the source). -/
structure CleanStats where
  filas_iniciales : Nat
  filas_finales : Nat
  columnas_iniciales : Nat
  columnas_finales : Nat
  filas_eliminadas : Nat
  columnas_eliminadas : Nat
deriving DecidableEq

/-- The row list produced by `clean_dataframe`: drop all-null rows, then
all-null columns, then duplicate rows (first occurrence kept).
`reset_index(drop=True)` renumbers rows densely and is the identity on the
row list itself. -/
def cleanedRows (df : DataFrame) : List Row :=
  dedupKeepFirst ((dropNullRows df.rows).map
    (applyMask (keepMask (dropNullRows df.rows) df.ncols)))

/-- The column count of the frame produced by `clean_dataframe`. -/
def cleanedNcols (df : DataFrame) : Nat :=
  (keepMask (dropNullRows df.rows) df.ncols).count true

/-- `FileProcessor.clean_dataframe`: the cleaned frame plus the statistics
computed as initial shape minus final shape on each axis. -/
def clean_dataframe (df : DataFrame) : DataFrame × CleanStats :=
  (⟨cleanedNcols df, cleanedRows df⟩,
   { filas_iniciales := df.rows.length
     filas_finales := (cleanedRows df).length
     columnas_iniciales := df.ncols
     columnas_finales := cleanedNcols df
     filas_eliminadas := df.rows.length - (cleanedRows df).length
     columnas_eliminadas := df.ncols - cleanedNcols df })

/-! ## Basic lemmas about the cleaning pipeline -/

theorem mem_dedupAux {l : List Row} :
    ∀ {seen : List Row} {x : Row}, x ∈ dedupAux seen l ↔ x ∈ l ∧ x ∉ seen := by
  induction l with
  | nil => simp [dedupAux]
  | cons r rs ih =>
    intro seen x
    by_cases hr : r ∈ seen
    · rw [dedupAux, if_pos hr, ih, List.mem_cons]
      constructor
      · exact fun ⟨h1, h2⟩ => ⟨Or.inr h1, h2⟩
      · rintro ⟨h1 | h1, h2⟩
        · exact absurd (h1 ▸ hr) h2
        · exact ⟨h1, h2⟩
    · rw [dedupAux, if_neg hr, List.mem_cons, ih, List.mem_cons]
      by_cases hx : x = r
      · subst hx; simp [hr]
      · simp [hx]

theorem mem_dedupKeepFirst {l : List Row} {x : Row} :
    x ∈ dedupKeepFirst l ↔ x ∈ l := by
  rw [dedupKeepFirst, mem_dedupAux]
  simp

theorem nodup_dedupAux {l : List Row} : ∀ {seen : List Row}, (dedupAux seen l).Nodup := by
  induction l with
  | nil => intro seen; simp [dedupAux]
  | cons r rs ih =>
    intro seen
    by_cases hr : r ∈ seen
    · rw [dedupAux, if_pos hr]; exact ih
    · rw [dedupAux, if_neg hr]
      refine List.nodup_cons.mpr ⟨?_, ih⟩
      intro hmem
      have := (mem_dedupAux.mp hmem).2
      simp at this

theorem nodup_dedupKeepFirst (l : List Row) : (dedupKeepFirst l).Nodup :=
  nodup_dedupAux

theorem dedupAux_eq_self {l : List Row} :
    ∀ {seen : List Row}, l.Nodup → (∀ x ∈ l, x ∉ seen) → dedupAux seen l = l := by
  induction l with
  | nil => intro seen _ _; rfl
  | cons r rs ih =>
    intro seen hnd hdisj
    have hr : r ∉ seen := hdisj r (List.mem_cons_self r rs)
    rw [dedupAux, if_neg hr]
    congr 1
    refine ih (List.nodup_cons.mp hnd).2 ?_
    intro x hx
    rw [List.mem_cons]
    rintro (he | hs)
    · exact (List.nodup_cons.mp hnd).1 (he ▸ hx)
    · exact hdisj x (List.mem_cons_of_mem r hx) hs

theorem dedupKeepFirst_eq_self_of_nodup {l : List Row} (h : l.Nodup) :
    dedupKeepFirst l = l :=
  dedupAux_eq_self h (fun x _ => List.not_mem_nil x)

theorem length_keepMask (rows : List Row) (n : Nat) : (keepMask rows n).length = n := by
  simp [keepMask]

theorem getD_keepMask (rows : List Row) {n j : Nat} (h : j < n) :
    (keepMask rows n).getD j false = colHasValue rows j := by
  simp [keepMask, List.getD_eq_getElem?_getD, List.getElem?_map, List.getElem?_range h]

theorem length_applyMask {mask : List Bool} {r : Row} (h : r.length = mask.length) :
    (applyMask mask r).length = mask.count true := by
  induction mask generalizing r with
  | nil =>
    cases r with
    | nil => simp [applyMask]
    | cons c cs => simp at h
  | cons b bs ih =>
    cases r with
    | nil => simp at h
    | cons c cs =>
      simp only [List.length_cons, Nat.succ_inj] at h
      cases b with
      | true => simp [applyMask, ih h, List.count_cons]
      | false => simp [applyMask, ih h, List.count_cons]

theorem applyMask_replicate_true {n : Nat} {r : Row} (h : r.length = n) :
    applyMask (List.replicate n true) r = r := by
  induction n generalizing r with
  | zero =>
    cases r with
    | nil => rfl
    | cons c cs => simp at h
  | succ m ih =>
    cases r with
    | nil => simp at h
    | cons c cs =>
      simp only [List.length_cons, Nat.succ_inj] at h
      simp [List.replicate_succ, applyMask, ih h]

theorem cellAt_mem_applyMask {mask : List Bool} {r : Row} {j : Nat}
    (hj : j < r.length) (hm : j < mask.length) (ht : mask.getD j false = true) :
    cellAt r j ∈ applyMask mask r := by
  induction mask generalizing r j with
  | nil => simp at hm
  | cons b bs ih =>
    cases r with
    | nil => simp at hj
    | cons c cs =>
      cases j with
      | zero =>
        simp only [List.getD_cons_zero] at ht
        subst ht
        simp [applyMask, cellAt]
      | succ k =>
        simp only [List.getD_cons_succ] at ht
        have hj' : k < cs.length := by simpa using hj
        have hm' : k < bs.length := by simpa using hm
        have hmem := ih hj' hm' ht
        have hcell : cellAt (c :: cs) (k + 1) = cellAt cs k := by simp [cellAt]
        rw [hcell]
        cases b with
        | true => exact List.mem_cons_of_mem _ hmem
        | false => simpa [applyMask] using hmem

theorem exists_isSome_of_not_nullRow {r : Row} (h : isNullRow r = false) :
    ∃ j, j < r.length ∧ (cellAt r j).isSome := by
  simp only [isNullRow, List.all_eq_true, not_forall] at h
  have h2 : ¬ ∀ c ∈ r, c.isNone := by
    intro hall
    rw [List.all_eq_true.mpr fun c hc => by simpa using hall c hc] at h
    simp at h
  push_neg at h2
  obtain ⟨c, hc, hnone⟩ := h2
  obtain ⟨j, hj, hget⟩ := List.mem_iff_getElem.mp hc
  refine ⟨j, hj, ?_⟩
  have : cellAt r j = c := by simp [cellAt, List.getD_eq_getElem?_getD, List.getElem?_eq_getElem hj, hget]
  rw [this]
  cases c with
  | none => simp at hnone
  | some v => simp

theorem isNullRow_applyMask_false {mask : List Bool} {r : Row} {j : Nat}
    (hj : j < r.length) (hm : j < mask.length)
    (ht : mask.getD j false = true) (hs : (cellAt r j).isSome) :
    isNullRow (applyMask mask r) = false := by
  have hmem := cellAt_mem_applyMask hj hm ht
  simp only [isNullRow]
  rw [List.all_eq_false]
  refine ⟨cellAt r j, hmem, ?_⟩
  simp [Option.isNone_iff_eq_none]
  intro he
  rw [he] at hs
  simp at hs

/-- The original column index of the `j`-th kept column of a mask. -/
def trueIdx : List Bool → Nat → Nat
  | [], _ => 0
  | true :: _, 0 => 0
  | true :: bs, j + 1 => trueIdx bs j + 1
  | false :: bs, j => trueIdx bs j + 1

theorem trueIdx_lt_length {mask : List Bool} {j : Nat} (h : j < mask.count true) :
    trueIdx mask j < mask.length := by
  induction mask generalizing j with
  | nil => simp [List.count_nil] at h
  | cons b bs ih =>
    cases b with
    | true =>
      cases j with
      | zero => simp [trueIdx]
      | succ k =>
        have hk : k < bs.count true := by
          have := h; simp [List.count_cons] at this; omega
        simpa [trueIdx] using Nat.succ_lt_succ (ih hk)
    | false =>
      have hk : j < bs.count true := by
        have := h; simp [List.count_cons] at this; omega
      simpa [trueIdx] using Nat.succ_lt_succ (ih hk)

theorem getD_trueIdx {mask : List Bool} {j : Nat} (h : j < mask.count true) :
    mask.getD (trueIdx mask j) false = true := by
  induction mask generalizing j with
  | nil => simp [List.count_nil] at h
  | cons b bs ih =>
    cases b with
    | true =>
      cases j with
      | zero => simp [trueIdx]
      | succ k =>
        have hk : k < bs.count true := by
          have := h; simp [List.count_cons] at this; omega
        simpa [trueIdx] using ih hk
    | false =>
      have hk : j < bs.count true := by
        have := h; simp [List.count_cons] at this; omega
      simpa [trueIdx] using ih hk

theorem cellAt_applyMask {mask : List Bool} {r : Row} {j : Nat}
    (hlen : r.length = mask.length) (h : j < mask.count true) :
    cellAt (applyMask mask r) j = cellAt r (trueIdx mask j) := by
  induction mask generalizing r j with
  | nil => simp [List.count_nil] at h
  | cons b bs ih =>
    cases r with
    | nil => simp at hlen
    | cons c cs =>
      simp only [List.length_cons, Nat.succ_inj] at hlen
      cases b with
      | true =>
        cases j with
        | zero => simp [trueIdx, applyMask, cellAt]
        | succ k =>
          have hk : k < bs.count true := by
            have := h; simp [List.count_cons] at this; omega
          have := ih (r := cs) hlen hk
          simpa [trueIdx, applyMask, cellAt] using this
      | false =>
        have hk : j < bs.count true := by
          have := h; simp [List.count_cons] at this; omega
        have := ih (r := cs) hlen hk
        simpa [trueIdx, applyMask, cellAt] using this

/-! ## Structural facts about `clean_dataframe` -/

theorem rect_iff {df : DataFrame} :
    df.rect = true ↔ ∀ r ∈ df.rows, r.length = df.ncols := by
  simp [DataFrame.rect, List.all_eq_true]

theorem mem_dropNullRows {rows : List Row} {r : Row} :
    r ∈ dropNullRows rows ↔ r ∈ rows ∧ isNullRow r = false := by
  simp [dropNullRows, List.mem_filter]

/-- Every row of the cleaned frame keeps at least one non-null cell. -/
theorem cleanedRows_no_null_row {df : DataFrame} (hrect : df.rect = true) :
    ∀ r ∈ cleanedRows df, isNullRow r = false := by
  intro r hr
  have hr2 : r ∈ (dropNullRows df.rows).map
      (applyMask (keepMask (dropNullRows df.rows) df.ncols)) :=
    mem_dedupKeepFirst.mp hr
  obtain ⟨r0, hr0, rfl⟩ := List.mem_map.mp hr2
  have hr0' := mem_dropNullRows.mp hr0
  have hlen : r0.length = df.ncols := (rect_iff.mp hrect) r0 hr0'.1
  obtain ⟨j, hj, hs⟩ := exists_isSome_of_not_nullRow hr0'.2
  have hjn : j < df.ncols := hlen ▸ hj
  have hm : j < (keepMask (dropNullRows df.rows) df.ncols).length := by
    rw [length_keepMask]; exact hjn
  have ht : (keepMask (dropNullRows df.rows) df.ncols).getD j false = true := by
    rw [getD_keepMask _ hjn]
    simp only [colHasValue, List.any_eq_true]
    exact ⟨r0, hr0, hs⟩
  exact isNullRow_applyMask_false hj hm ht hs

/-- Every column of the cleaned frame keeps at least one non-null cell. -/
theorem cleanedRows_no_null_col {df : DataFrame} (hrect : df.rect = true) :
    ∀ j, j < cleanedNcols df → colHasValue (cleanedRows df) j = true := by
  intro j hj
  set mask := keepMask (dropNullRows df.rows) df.ncols with hmask
  have hcount : j < mask.count true := hj
  have hk1 : trueIdx mask j < mask.length := trueIdx_lt_length hcount
  have hk2 : mask.getD (trueIdx mask j) false = true := getD_trueIdx hcount
  have hkn : trueIdx mask j < df.ncols := by
    rw [hmask, length_keepMask] at hk1; exact hk1
  rw [hmask, getD_keepMask _ hkn] at hk2
  simp only [colHasValue, List.any_eq_true] at hk2
  obtain ⟨r0, hr0, hs⟩ := hk2
  have hlen : r0.length = df.ncols :=
    (rect_iff.mp hrect) r0 (mem_dropNullRows.mp hr0).1
  have hlen2 : r0.length = mask.length := by rw [hmask, length_keepMask]; exact hlen
  have hmem2 : applyMask mask r0 ∈ cleanedRows df := by
    apply mem_dedupKeepFirst.mpr
    exact List.mem_map.mpr ⟨r0, hr0, rfl⟩
  simp only [colHasValue, List.any_eq_true]
  refine ⟨applyMask mask r0, hmem2, ?_⟩
  rw [cellAt_applyMask hlen2 hcount]
  exact hs

/-- Every row of the cleaned frame has exactly `cleanedNcols df` cells. -/
theorem cleanedRows_rect {df : DataFrame} (hrect : df.rect = true) :
    ∀ r ∈ cleanedRows df, r.length = cleanedNcols df := by
  intro r hr
  have hr2 : r ∈ (dropNullRows df.rows).map
      (applyMask (keepMask (dropNullRows df.rows) df.ncols)) :=
    mem_dedupKeepFirst.mp hr
  obtain ⟨r0, hr0, rfl⟩ := List.mem_map.mp hr2
  have hlen : r0.length = df.ncols :=
    (rect_iff.mp hrect) r0 (mem_dropNullRows.mp hr0).1
  have hlen2 : r0.length = (keepMask (dropNullRows df.rows) df.ncols).length := by
    rw [length_keepMask]; exact hlen
  exact length_applyMask hlen2

/-- After cleaning, the row filter of a second cleaning pass keeps everything. -/
theorem dropNullRows_cleanedRows {df : DataFrame} (hrect : df.rect = true) :
    dropNullRows (cleanedRows df) = cleanedRows df := by
  apply List.filter_eq_self.mpr
  intro r hr
  rw [cleanedRows_no_null_row hrect r hr]
  rfl

/-- After cleaning, the column mask of a second cleaning pass keeps every column. -/
theorem keepMask_cleanedRows {df : DataFrame} (hrect : df.rect = true) :
    keepMask (cleanedRows df) (cleanedNcols df) =
      List.replicate (cleanedNcols df) true := by
  rw [List.eq_replicate_iff]
  refine ⟨length_keepMask _ _, ?_⟩
  intro b hb
  simp only [keepMask, List.mem_map, List.mem_range] at hb
  obtain ⟨j, hj, rfl⟩ := hb
  exact cleanedRows_no_null_col hrect j hj

/-- C3 (`Idempotence of cleaning`): for every rectangular Tabular Dataset,
cleaning the dataset component of a cleaning result returns that same
dataset: `clean(clean(D).dataset).dataset = clean(D).dataset`. -/
theorem clean_dataframe_idempotent (df : DataFrame) (hrect : df.rect = true) :
    (clean_dataframe (clean_dataframe df).1).1 = (clean_dataframe df).1 := by
  have hfst : (clean_dataframe df).1 = ⟨cleanedNcols df, cleanedRows df⟩ := rfl
  have hrows : cleanedRows (clean_dataframe df).1 = cleanedRows df := by
    show dedupKeepFirst _ = _
    rw [hfst]
    show dedupKeepFirst ((dropNullRows (cleanedRows df)).map
      (applyMask (keepMask (dropNullRows (cleanedRows df)) (cleanedNcols df)))) =
      cleanedRows df
    rw [dropNullRows_cleanedRows hrect, keepMask_cleanedRows hrect]
    have hmap : (cleanedRows df).map
        (applyMask (List.replicate (cleanedNcols df) true)) = cleanedRows df := by
      have := List.map_congr_left (l := cleanedRows df)
        (f := applyMask (List.replicate (cleanedNcols df) true)) (g := id)
        (fun r hr => applyMask_replicate_true (cleanedRows_rect hrect r hr))
      rw [this, List.map_id]
    rw [hmap]
    exact dedupKeepFirst_eq_self_of_nodup (nodup_dedupKeepFirst _)
  have hcols : cleanedNcols (clean_dataframe df).1 = cleanedNcols df := by
    show ((keepMask (dropNullRows (clean_dataframe df).1.rows)
      (clean_dataframe df).1.ncols).count true) = cleanedNcols df
    rw [hfst]
    show ((keepMask (dropNullRows (cleanedRows df)) (cleanedNcols df)).count true) =
      cleanedNcols df
    rw [dropNullRows_cleanedRows hrect, keepMask_cleanedRows hrect]
    simp
  show (⟨cleanedNcols (clean_dataframe df).1, cleanedRows (clean_dataframe df).1⟩ :
    DataFrame) = ⟨cleanedNcols df, cleanedRows df⟩
  rw [hrows, hcols]

/-- Witness for C3 on a concrete frame holding a duplicate row, an all-null
row and an all-null column. -/
theorem clean_dataframe_idempotent_witness :
    (⟨2, [[some "x", none], [some "x", none], [none, none]]⟩ : DataFrame).rect = true ∧
    (clean_dataframe (clean_dataframe
        ⟨2, [[some "x", none], [some "x", none], [none, none]]⟩).1).1 =
      (clean_dataframe ⟨2, [[some "x", none], [some "x", none], [none, none]]⟩).1 :=
  ⟨by decide, clean_dataframe_idempotent _ (by decide)⟩

/-- C5 (`All-null pruning`): for every rectangular Tabular Dataset the
cleaned frame holds no all-null row and no all-null column — this holds for
every input, in particular for inputs without duplicate rows. -/
theorem clean_dataframe_prunes_all_null (df : DataFrame) (hrect : df.rect = true) :
    ((clean_dataframe df).1.rows.all (fun r => !isNullRow r)) = true ∧
    ((List.range (clean_dataframe df).1.ncols).all
      (fun j => colHasValue (clean_dataframe df).1.rows j)) = true := by
  constructor
  · rw [List.all_eq_true]
    intro r hr
    rw [cleanedRows_no_null_row hrect r hr]
    rfl
  · rw [List.all_eq_true]
    intro j hj
    rw [List.mem_range] at hj
    exact cleanedRows_no_null_col hrect j hj

/-- Witness for C5 on a concrete duplicate-free frame holding an all-null
row and an all-null column. -/
theorem clean_dataframe_prunes_all_null_witness :
    (⟨2, [[some "a", none], [none, none], [some "b", none]]⟩ : DataFrame).rect = true ∧
    ((clean_dataframe ⟨2, [[some "a", none], [none, none], [some "b", none]]⟩).1.rows.all
      (fun r => !isNullRow r)) = true ∧
    ((List.range (clean_dataframe
        ⟨2, [[some "a", none], [none, none], [some "b", none]]⟩).1.ncols).all
      (fun j => colHasValue (clean_dataframe
        ⟨2, [[some "a", none], [none, none], [some "b", none]]⟩).1.rows j)) = true :=
  ⟨by decide, clean_dataframe_prunes_all_null _ (by decide)⟩

/-- C6 (`Duplicate policy`): for rows `[A, A, B]` with `A ≠ B`, neither row
all-null and no all-null column, cleaning yields `[A, B]` and reports
exactly one removed row (first occurrence kept). -/
theorem clean_dataframe_duplicates (n : Nat) (A B : Row)
    (hA : A.length = n) (hB : B.length = n) (hAB : A ≠ B)
    (hnA : isNullRow A = false) (hnB : isNullRow B = false)
    (hcol : ((List.range n).all
      (fun j => (cellAt A j).isSome || (cellAt B j).isSome)) = true) :
    (clean_dataframe ⟨n, [A, A, B]⟩).1 = ⟨n, [A, B]⟩ ∧
    (clean_dataframe ⟨n, [A, A, B]⟩).2.filas_eliminadas = 1 := by
  have hBA : ¬ (B = A) := fun h => hAB h.symm
  have hdrop : dropNullRows [A, A, B] = [A, A, B] := by
    apply List.filter_eq_self.mpr
    intro r hr
    simp only [List.mem_cons, List.not_mem_nil, or_false] at hr
    rcases hr with rfl | rfl | rfl <;> simp [hnA, hnB]
  have hmask : keepMask [A, A, B] n = List.replicate n true := by
    rw [List.eq_replicate_iff]
    refine ⟨length_keepMask _ _, ?_⟩
    intro b hb
    simp only [keepMask, List.mem_map, List.mem_range] at hb
    obtain ⟨j, hj, rfl⟩ := hb
    rw [List.all_eq_true] at hcol
    have := hcol j (List.mem_range.mpr hj)
    simp only [Bool.or_eq_true] at this
    simp only [colHasValue, List.any_cons, List.any_nil, Bool.or_eq_true, Bool.or_false]
    rcases this with h | h
    · exact Or.inl h
    · exact Or.inr (Or.inr h)
  have hmap : ([A, A, B] : List Row).map (applyMask (List.replicate n true)) =
      [A, A, B] := by
    simp [applyMask_replicate_true hA, applyMask_replicate_true hB]
  have hded : dedupKeepFirst [A, A, B] = [A, B] := by
    simp [dedupKeepFirst, dedupAux, hBA]
  have hrows : cleanedRows ⟨n, [A, A, B]⟩ = [A, B] := by
    show dedupKeepFirst ((dropNullRows [A, A, B]).map
      (applyMask (keepMask (dropNullRows [A, A, B]) n))) = [A, B]
    rw [hdrop, hmask, hmap, hded]
  have hcols : cleanedNcols ⟨n, [A, A, B]⟩ = n := by
    show (keepMask (dropNullRows [A, A, B]) n).count true = n
    rw [hdrop, hmask]
    simp
  constructor
  · show (⟨cleanedNcols ⟨n, [A, A, B]⟩, cleanedRows ⟨n, [A, A, B]⟩⟩ : DataFrame)
      = ⟨n, [A, B]⟩
    rw [hrows, hcols]
  · show ([A, A, B] : List Row).length - (cleanedRows ⟨n, [A, A, B]⟩).length = 1
    rw [hrows]
    simp

/-- Witness for C6 at `A = [some "a"]`, `B = [some "b"]`. -/
theorem clean_dataframe_duplicates_witness :
    ([some "a"] : Row) ≠ [some "b"] ∧
    ((clean_dataframe ⟨1, [[some "a"], [some "a"], [some "b"]]⟩).1 =
        ⟨1, [[some "a"], [some "b"]]⟩ ∧
      (clean_dataframe
        ⟨1, [[some "a"], [some "a"], [some "b"]]⟩).2.filas_eliminadas = 1) :=
  ⟨by decide, clean_dataframe_duplicates 1 [some "a"] [some "b"] (by decide) (by decide)
    (by decide) (by decide) (by decide) (by decide)⟩

/-! ## Chunked ingestion (`FileProcessor.process_large_file` and `main`) -/

/-- The `if_exists` write mode passed to `DataFrame.to_sql` by
`DatabaseManager.save_dataframe`. -/
inductive WMode
  | replace
  | append
deriving DecidableEq

/-- One database write performed by the ingestor: destination table name,
write mode, and the chunk written. -/
structure WriteOp (α : Type) where
  table : String
  mode : WMode
  chunk : α
deriving DecidableEq

/-- The chunk loop of `process_large_file`.  `saveOk i` is the success of
the `i`-th call to `DatabaseManager.save_dataframe`; on a failed write the
loop returns `False` at once.  Returns the reported success flag together
with the list of writes performed, in order. -/
def processChunks {α : Type} (saveOk : Nat → Bool) :
    Nat → Bool → List α → Bool × List (WriteOp α)
  | _, _, [] => (true, [])
  | idx, isFirst, c :: rest =>
    let op : WriteOp α :=
      ⟨"raw_data", if isFirst then WMode.replace else WMode.append, c⟩
    if saveOk idx then
      let r := processChunks saveOk (idx + 1) false rest
      (r.1, op :: r.2)
    else (false, [op])

/-- `FileProcessor.process_large_file`, abstracted over the chunk stream
`pd.read_csv(file, chunksize=CHUNK_SIZE, ...)` yields and over the success
of each database write: starts with `is_first_chunk = True`, hence
`replace` for the first chunk and `append` afterwards, always into the
`raw_data` table. -/
def process_large_file {α : Type} (saveOk : Nat → Bool) (chunks : List α) :
    Bool × List (WriteOp α) :=
  processChunks saveOk 0 true chunks

theorem processChunks_map_table {α : Type} {saveOk : Nat → Bool}
    (hsave : ∀ i, saveOk i = true) (chunks : List α) :
    ∀ (idx : Nat) (first : Bool),
      (processChunks saveOk idx first chunks).2.map (fun op => op.table) =
        List.replicate chunks.length "raw_data" := by
  induction chunks with
  | nil => intro idx first; rfl
  | cons c rest ih =>
    intro idx first
    rw [processChunks]
    simp only [hsave idx, if_true]
    simp [ih (idx + 1) false, List.replicate_succ]

theorem processChunks_map_mode_append {α : Type} {saveOk : Nat → Bool}
    (hsave : ∀ i, saveOk i = true) (chunks : List α) :
    ∀ (idx : Nat),
      (processChunks saveOk idx false chunks).2.map (fun op => op.mode) =
        List.replicate chunks.length WMode.append := by
  induction chunks with
  | nil => intro idx; rfl
  | cons c rest ih =>
    intro idx
    rw [processChunks]
    simp only [hsave idx, if_true]
    simp [ih (idx + 1), List.replicate_succ]

/-- C1 (`Chunk write-mode sequencing`): when a file splits into `n ≥ 1`
chunks and every write succeeds, all `n` writes target the `raw_data`
table, the first uses `replace` and chunks `2..n` use `append`. -/
theorem process_large_file_write_modes {α : Type} (saveOk : Nat → Bool)
    (chunks : List α) (hne : chunks ≠ []) (hsave : ∀ i, saveOk i = true) :
    (process_large_file saveOk chunks).2.map (fun op => op.table) =
      List.replicate chunks.length "raw_data" ∧
    (process_large_file saveOk chunks).2.map (fun op => op.mode) =
      WMode.replace :: List.replicate (chunks.length - 1) WMode.append := by
  refine ⟨processChunks_map_table hsave chunks 0 true, ?_⟩
  cases chunks with
  | nil => exact absurd rfl hne
  | cons c rest =>
    show (processChunks saveOk 0 true (c :: rest)).2.map (fun op => op.mode) = _
    rw [processChunks]
    simp only [hsave 0, if_true]
    simp [processChunks_map_mode_append hsave rest 1]

/-- Witness for C1: three chunks, all writes succeeding. -/
theorem process_large_file_write_modes_witness :
    (process_large_file (fun _ => true) ([10, 20, 30] : List Nat)).2.map
        (fun op => op.table) = List.replicate 3 "raw_data" ∧
    (process_large_file (fun _ => true) ([10, 20, 30] : List Nat)).2.map
        (fun op => op.mode) =
      WMode.replace :: List.replicate 2 WMode.append :=
  process_large_file_write_modes (fun _ => true) ([10, 20, 30] : List Nat)
    (by decide) (fun i => rfl)

/-- The `Process for Transformation` loop of `main`: run
`process_large_file` on every uploaded file in order, incrementing
`success_count` on each success.  Returns the success tally together with
the list of files processed, in order. -/
def mainBatch {φ : Type} (ingest : φ → Bool) (files : List φ) : Nat × List φ :=
  files.foldl (fun acc f => ((if ingest f then acc.1 + 1 else acc.1), acc.2 ++ [f]))
    (0, [])

theorem mainBatch_foldl {φ : Type} (ingest : φ → Bool) (files : List φ) :
    ∀ (n : Nat) (acc : List φ),
      files.foldl
        (fun acc f => ((if ingest f then acc.1 + 1 else acc.1), acc.2 ++ [f]))
        (n, acc) = (n + files.countP ingest, acc ++ files) := by
  induction files with
  | nil => intro n acc; simp
  | cons f rest ih =>
    intro n acc
    rw [List.foldl_cons, ih, List.countP_cons]
    by_cases hf : ingest f <;> (simp [hf]; try omega)

/-- C4 (`Multi-file aggregation`): every uploaded file is processed — a
failed ingestion never aborts the remaining files — and the reported
success count is exactly the number of files whose ingestion succeeded. -/
theorem mainBatch_counts_and_processes_all {φ : Type} (ingest : φ → Bool)
    (files : List φ) :
    mainBatch ingest files = (files.countP ingest, files) := by
  rw [mainBatch, mainBatch_foldl]
  simp

/-- C10: a file whose parse yields zero chunks is reported as a success
while performing no database write at all — the `raw_data` table is left
untouched (in particular not replaced) — and it still counts in the batch
success tally. -/
theorem process_large_file_no_chunks {α : Type} (saveOk : Nat → Bool) :
    process_large_file saveOk ([] : List α) = (true, []) ∧
    (mainBatch (fun chunks => (process_large_file saveOk chunks).1)
      [([] : List α)]).1 = 1 := by
  constructor
  · rfl
  · rfl

/-! ## Connection acquisition (`utils/db.py`) -/

/-- The body of the `for attempt in range(MAX_DB_RETRIES)` loop of
`get_engine`, run over the listed attempt numbers.  `probe i` is the
outcome of the `i`-th connection attempt (`create_engine` plus the
`SELECT 1` liveness probe): `some e` yields engine `e`, `none` raises
`OperationalError`.  Returns the engine obtained (`none` once the loop is
exhausted), the number of attempts performed, and the `time.sleep`
durations executed between attempts, in seconds and in order: the source
sleeps 2 seconds only when `attempt < MAX_DB_RETRIES - 1`, otherwise it
reports the error and returns `None` at once. -/
def getEngineLoop {E : Type} (probe : Nat → Option E) (maxRetries : Nat) :
    List Nat → Option E × Nat × List Nat
  | [] => (none, 0, [])
  | attempt :: rest =>
    match probe attempt with
    | some e => (some e, 1, [])
    | none =>
      if attempt < maxRetries - 1 then
        let r := getEngineLoop probe maxRetries rest
        (r.1, r.2.1 + 1, 2 :: r.2.2)
      else (none, 1, [])

/-- `get_engine` of `utils/db.py` (the uncached body): retry the connection
probe over attempts `0, …, MAX_DB_RETRIES - 1`. -/
def get_engine {E : Type} (probe : Nat → Option E) (maxRetries : Nat) :
    Option E × Nat × List Nat :=
  getEngineLoop probe maxRetries (List.range maxRetries)

theorem getEngineLoop_all_fail {E : Type} {probe : Nat → Option E}
    (hfail : ∀ i, probe i = none) (maxRetries : Nat) :
    ∀ (n s : Nat), s + n = maxRetries →
      getEngineLoop probe maxRetries (List.range' s n) =
        (none, n, List.replicate (n - 1) 2) := by
  intro n
  induction n with
  | zero => intro s _; rfl
  | succ m ih =>
    intro s hs
    rw [List.range'_succ, getEngineLoop, hfail s]
    cases m with
    | zero =>
      have hlt : ¬ s < maxRetries - 1 := by omega
      simp [hlt]
    | succ k =>
      have hlt : s < maxRetries - 1 := by omega
      have hrec := ih (s + 1) (by omega)
      simp only [hlt, if_true, hrec]
      simp [List.replicate_succ]

/-- C2 (`Retry exhaustion`): when every connection attempt fails,
`get_engine` returns `None` after exactly `MAX_DB_RETRIES` attempts — not
before and not after — sleeping a fixed 2 seconds between consecutive
attempts and not sleeping after the last one. -/
theorem get_engine_retry_exhaustion {E : Type} (probe : Nat → Option E)
    (maxRetries : Nat) (hfail : ∀ i, probe i = none) :
    get_engine probe maxRetries =
      (none, maxRetries, List.replicate (maxRetries - 1) 2) := by
  rw [get_engine, List.range_eq_range']
  exact getEngineLoop_all_fail hfail maxRetries maxRetries 0 (by omega)

/-- Witness for C2 with three attempts, all failing: three attempts are
performed and exactly two 2-second waits happen, none after the last. -/
theorem get_engine_retry_exhaustion_witness :
    get_engine (fun _ => (none : Option Nat)) 3 = (none, 3, [2, 2]) := by
  have h := get_engine_retry_exhaustion (fun _ => (none : Option Nat)) 3
    (fun i => rfl)
  simpa using h

/-- The `@st.cache_resource` decoration of `get_engine`: the cache state is
`none` before the first call and `some r` after a call returned `r`.  A
call with a populated cache returns the cached value unchanged and performs
zero connection attempts (third component); otherwise the body
`get_engine` runs and its result is cached — whatever it is. -/
def get_engine_cached {E : Type} (probe : Nat → Option E) (maxRetries : Nat) :
    Option (Option E) → Option E × Option (Option E) × Nat
  | some cached => (cached, some cached, 0)
  | none =>
    let r := get_engine probe maxRetries
    (r.1, some r.1, r.2.1)

/-- C9: once a call to the cached `get_engine` has returned an engine, the
cache holds it, and any later call — whatever its probe outcomes or retry
limit would be — returns the identical handle, leaves the cache unchanged
and performs zero connection attempts (so no liveness probe runs). -/
theorem get_engine_cached_memoizes {E : Type} (probe : Nat → Option E)
    (maxRetries : Nat) (st : Option (Option E)) (e : E)
    (st1 : Option (Option E)) (n : Nat)
    (h : get_engine_cached probe maxRetries st = (some e, st1, n))
    (probe2 : Nat → Option E) (maxRetries2 : Nat) :
    get_engine_cached probe2 maxRetries2 st1 = (some e, st1, 0) := by
  cases st with
  | some cached =>
    rw [get_engine_cached] at h
    rw [Prod.ext_iff, Prod.ext_iff] at h
    obtain ⟨h1, h2, h3⟩ := h
    simp only at h1 h2
    rw [h1] at h2
    rw [← h2]
    rfl
  | none =>
    rw [get_engine_cached] at h
    rw [Prod.ext_iff, Prod.ext_iff] at h
    obtain ⟨h1, h2, h3⟩ := h
    simp only at h1 h2
    rw [h1] at h2
    rw [← h2]
    rfl

/-- Witness for C9: a first call succeeds on its only attempt and caches
engine `7`; a second call whose probes would all fail still returns engine
`7` with zero attempts. -/
theorem get_engine_cached_memoizes_witness :
    get_engine_cached (fun _ => (none : Option Nat)) 5 (some (some 7)) =
      (some 7, some (some 7), 0) :=
  get_engine_cached_memoizes (fun _ => some 7) 1 none 7 (some (some 7)) 1
    (by decide) (fun _ => none) 5

/-! ## Delimiter detection (`FileProcessor.detect_delimiter`)

The detector calls `csv.Sniffer().sniff(sample, delimiters=[',', ';',
'\t', '|'])` and falls back to a comma on `csv.Error`.  The sniffer is
CPython's: the definitions below follow `csv.Sniffer._guess_delimiter`
line by line, with Python dictionaries rendered as insertion-ordered
association lists — lookups by key, in-place updates, appends for new
keys, iteration in insertion order — exactly the observable behaviour the
algorithm depends on. -/

/-- Python-dictionary lookup on an insertion-ordered association list. -/
def dictGet {κ ν : Type} [BEq κ] (d : List (κ × ν)) (key : κ) : Option ν :=
  match d.find? (fun p => p.1 == key) with
  | some p => some p.2
  | none => none

/-- Python `d.get(key, dflt)`. -/
def dictGetD {κ ν : Type} [BEq κ] (d : List (κ × ν)) (key : κ) (dflt : ν) : ν :=
  (dictGet d key).getD dflt

/-- Python `d[key] = val`: update in place, or append a new key. -/
def dictSet {κ ν : Type} [BEq κ] : List (κ × ν) → κ → ν → List (κ × ν)
  | [], key, val => [(key, val)]
  | p :: rest, key, val =>
    if p.1 == key then (key, val) :: rest else p :: dictSet rest key val

/-- Python `key in d`. -/
def dictHasKey {κ ν : Type} [BEq κ] (d : List (κ × ν)) (key : κ) : Bool :=
  (dictGet d key).isSome

/-- `data.split('\n')`, character-exact. -/
def pySplitLines (data : String) : List String :=
  (data.toList.splitOn '\n').map (fun cs => String.mk cs)

/-- `line.count(char)` for a single character. -/
def pyCount (line : String) (c : Char) : Nat := line.toList.count c

/-- `[chr(c) for c in range(127)]` — the 7-bit candidate alphabet. -/
def asciiChars : List Char := (List.range 127).map Char.ofNat

/-- Python `max(items, key=lambda x: x[1])`: the first item with maximal
second component. -/
def pyMaxBySnd : List (Nat × Nat) → Nat × Nat
  | [] => (0, 0)
  | x :: xs => xs.foldl (fun best y => if best.2 < y.2 then y else best) x

/-- Python `items.remove(x)`: drop the first occurrence of `x`. -/
def pyRemoveFirst {α : Type} [BEq α] : List α → α → List α
  | [], _ => []
  | y :: ys, x => if y == x then ys else y :: pyRemoveFirst ys x

/-- `sum(item[1] for item in items)`. -/
def sumSnd (l : List (Nat × Nat)) : Nat := l.foldl (fun a p => a + p.2) 0

/-- One line's contribution to `charFrequency`: for every 7-bit character,
bump the tally of its per-line occurrence count (zero included). -/
def tallyLine (cf : List (Char × List (Nat × Nat))) (line : String) :
    List (Char × List (Nat × Nat)) :=
  asciiChars.foldl (fun cf ch =>
    let mf := dictGetD cf ch []
    let freq := pyCount line ch
    dictSet cf ch (dictSet mf freq (dictGetD mf freq 0 + 1))) cf

/-- The `modes` update: for every character with a non-trivial frequency
table, the modal per-line frequency, its count adjusted down by the counts
of every other frequency (which is why the count is an `Int`). -/
def updateModes (modes : List (Char × (Nat × Int)))
    (cf : List (Char × List (Nat × Nat))) : List (Char × (Nat × Int)) :=
  cf.foldl (fun ms p =>
    let items := p.2
    if items.length = 1 ∧ (items.headD (0, 0)).1 = 0 then ms
    else if 1 < items.length then
      let m := pyMaxBySnd items
      let rest := pyRemoveFirst items m
      dictSet ms p.1 (m.1, (m.2 : Int) - (sumSnd rest : Int))
    else dictSet ms p.1 ((items.headD (0, 0)).1, ((items.headD (0, 0)).2 : Int)))
    modes

/-- The consistency test `(v[1]/total) >= consistency` at consistency step
`s` (the ratio is compared against `1 - s/100`), stated over the integers
by cross-multiplying with the positive `total`; `ratioGe_iff` below proves
that rearrangement exact. -/
def ratioGe (v2 : Int) (total : Nat) (s : Nat) : Bool :=
  decide ((100 - (s : Int)) * (total : Int) ≤ v2 * 100)

theorem ratioGe_iff (v2 : Int) (total : Nat) (s : Nat) (h : 0 < total) :
    ratioGe v2 total s = true ↔ 1 - (s : ℚ) / 100 ≤ (v2 : ℚ) / (total : ℚ) := by
  rw [ratioGe, decide_eq_true_iff]
  have h100 : (0 : ℚ) < 100 := by norm_num
  have ht : (0 : ℚ) < (total : ℚ) := by exact_mod_cast h
  have e1 : (1 : ℚ) - (s : ℚ) / 100 = ((100 : ℚ) - s) / 100 := by ring
  rw [e1, div_le_div_iff₀ h100 ht]
  have e2 : (((100 - (s : Int)) * (total : Int) : Int) : ℚ) =
      ((100 : ℚ) - s) * total := by
    push_cast
    ring
  have e3 : ((v2 * 100 : Int) : ℚ) = (v2 : ℚ) * 100 := by push_cast; ring
  rw [← e2, ← e3, Int.cast_le]

/-- One pass of the consistency loop: add to `delims` every candidate with
positive modal frequency and positive adjusted count whose ratio reaches
the current consistency, restricted to the allowed delimiter set. -/
def delimsPass (modeList : List (Char × (Nat × Int))) (total : Nat)
    (delimiters : List Char) (s : Nat)
    (delims : List (Char × (Nat × Int))) : List (Char × (Nat × Int)) :=
  modeList.foldl (fun dl p =>
    if 0 < p.2.1 ∧ 0 < p.2.2 ∧ ratioGe p.2.2 total s = true ∧
        p.1 ∈ delimiters
    then dictSet dl p.1 p.2 else dl) delims

/-- The `while len(delims) == 0 and consistency >= threshold` loop: the
source starts consistency at `1.0` and decrements by `0.01` down to the
`0.9` threshold; the steps are modelled exactly as `1 - s/100` for
`s = 0, …, 10`.  (CPython's accumulated float subtraction stops one step
earlier, near `0.91`; the difference is observable only for a candidate
whose ratio lies in `[0.9, 0.91)`, which cannot happen for the inputs
considered here, whose ratios are `1` or nonpositive.) -/
def consistencyLoop (modeList : List (Char × (Nat × Int))) (total : Nat)
    (delimiters : List Char) :
    List Nat → List (Char × (Nat × Int)) → List (Char × (Nat × Int))
  | [], delims => delims
  | s :: rest, delims =>
    if delims.isEmpty then
      consistencyLoop modeList total delimiters rest
        (delimsPass modeList total delimiters s delims)
    else delims

/-- The `data[start:end]` windows of `chunkLength` lines each; the fuel is
the line count, enough since every window consumes at least one line
(`n = 0` only happens for empty data, caught by the first branch). -/
def chunksOfGo (n : Nat) : Nat → List String → List (List String)
  | _, [] => []
  | 0, _ => []
  | fuel + 1, l => l.take n :: chunksOfGo n fuel (l.drop n)

/-- The chunk windows of the `while start < len(data)` loop. -/
def chunksOf (n : Nat) (l : List String) : List (List String) :=
  chunksOfGo n l.length l

/-- The chunk loop of `_guess_delimiter`: accumulate `charFrequency`,
recompute `modes`, run the consistency loop on the accumulated `delims`,
and return the single surviving candidate, else analyze the next chunk.
Returns the delimiter found inside the loop (if any) and the final
`delims` table. -/
def guessLoop (delimiters : List Char) (dataLen : Nat) (chunkLength : Nat) :
    List (List String) → Nat → List (Char × List (Nat × Nat)) →
    List (Char × (Nat × Int)) → List (Char × (Nat × Int)) →
    Option Char × List (Char × (Nat × Int))
  | [], _, _, _, delims => (none, delims)
  | chunk :: rest, iteration, cf, modes, delims =>
    let it1 := iteration + 1
    let cf1 := chunk.foldl tallyLine cf
    let modes1 := updateModes modes cf1
    let total := min (chunkLength * it1) dataLen
    let delims1 := consistencyLoop modes1 total delimiters (List.range 11) delims
    if delims1.length = 1 then (some (delims1.headD (',', (0, 0))).1, delims1)
    else guessLoop delimiters dataLen chunkLength rest it1 cf1 modes1 delims1

/-- `Sniffer.preferred`. -/
def preferred : List Char := [',', '\t', ';', ' ', ':']

/-- Python tuple comparison on `((freq, adjusted), char)`, as used by
`items.sort()` in the final fallback. -/
def tupleLt (a b : (Nat × Int) × Char) : Bool :=
  decide (a.1.1 < b.1.1 ∨ (a.1.1 = b.1.1 ∧
    (a.1.2 < b.1.2 ∨ (a.1.2 = b.1.2 ∧ a.2 < b.2))))

/-- `items = [(v, k) for (k, v) in delims.items()]; items.sort();
items[-1][1]`: the candidate with the greatest `((freq, adjusted), char)`
tuple. -/
def sortLast (delims : List (Char × (Nat × Int))) : Option Char :=
  match delims with
  | [] => none
  | p :: ps =>
    some ((ps.foldl (fun best q =>
      if tupleLt (best.2, best.1) (q.2, q.1) then q else best) p).1)

/-- `csv.Sniffer._guess_delimiter`, restricted to the delimiter it returns
(the accompanying `skipinitialspace` flag is discarded by the caller of
`sniff`); `none` models the falsy `''` return. -/
def guess_delimiter (data : String) (delimiters : List Char) : Option Char :=
  let lines := (pySplitLines data).filter (fun l => l ≠ "")
  let chunkLength := min 10 lines.length
  let r := guessLoop delimiters lines.length chunkLength
    (chunksOf chunkLength lines) 0 [] [] []
  match r.1 with
  | some d => some d
  | none =>
    let delims := r.2
    if delims.isEmpty then none
    else if 1 < delims.length then
      match preferred.find? (fun d => dictHasKey delims d) with
      | some d => some d
      | none => sortLast delims
    else sortLast delims

/-- The quote stage `csv.Sniffer._guess_quote_and_delimiter`: each of its
four regex alternatives requires a `"` or `'` quote character, so a sample
containing neither produces no matches and the stage reports no delimiter
(`return ('', False, None, 0)`).  Samples that do contain a quote
character (none occur in this development) are outside the model and are
mapped to `none` as well. -/
def guess_quote_and_delimiter (data : String) : Option Char :=
  if data.toList.any (fun c => c == '"' || c == Char.ofNat 39) then none
  else none

/-- `csv.Sniffer.sniff`, restricted to the delimiter: the quote stage
first, the frequency stage when it finds nothing; `none` models the
`raise csv.Error("Could not determine delimiter")`. -/
def sniff (sample : String) (delimiters : List Char) : Option Char :=
  match guess_quote_and_delimiter sample with
  | some d => some d
  | none => guess_delimiter sample delimiters

/-- `FileProcessor.detect_delimiter`: return the sniffed delimiter, and on
`csv.Error` fall back to a comma.  The function is total: no error
propagates to the caller. -/
def detect_delimiter (sniffer : String → Option Char) (sample : String) : Char :=
  match sniffer sample with
  | some d => d
  | none => ','

/-- The sniffer exactly as the repository invokes it:
`csv.Sniffer().sniff(sample_content, delimiters=[',', ';', '\t', '|'])`. -/
def repoSniffer (sample : String) : Option Char :=
  sniff sample [',', ';', '\t', '|']

/-- C7 (`Delimiter fallback`): for every sample on which the sniffer
cannot determine a delimiter — whatever the sniffer's behaviour — the
detector returns a comma; `detect_delimiter` is total, so no error ever
reaches its caller. -/
theorem detect_delimiter_fallback_comma (sniffer : String → Option Char)
    (sample : String) (h : sniffer sample = none) :
    detect_delimiter sniffer sample = ',' := by
  rw [detect_delimiter, h]

set_option maxRecDepth 100000 in
/-- Witness for C7: on a single column of plain words (`"word"`) the
repository's sniffer configuration determines no delimiter, and the
fallback yields a comma. -/
theorem detect_delimiter_fallback_comma_witness :
    repoSniffer "word" = none ∧ detect_delimiter repoSniffer "word" = ',' :=
  ⟨by decide, detect_delimiter_fallback_comma repoSniffer "word" (by decide)⟩

set_option maxRecDepth 100000 in
/-- C8 (`Delimiter detection correctness`): on the sample
`"a;b;c\n1;2;3"` the detector returns a semicolon. -/
theorem detect_delimiter_semicolon :
    detect_delimiter repoSniffer "a;b;c\n1;2;3" = ';' := by decide
